import Mathlib

/-!
Verification of `portable-media-local/src/file_map.rs`.

The development shallowly embeds the data model and operations of the file
map: the recursive directory indexer (`FileNode::build_from_path`,
`FileMap::from_root_dir`), the path resolver (`FileMap::get_file_ref`), the
disk reader (`FileMap::find_file_in_map`) and the cached query
(`FileMap::get_file`).  The filesystem seen by the indexer is modelled as an
inductive tree; the LRU content cache (the `lru` crate) is modelled as a
recency-ordered association list; `get_file` additionally returns the ordered
trace of lock and disk events its body performs, so that the locking
discipline of the miss path can be stated.
-/

/-- Byte buffers (`Vec<u8>` in the source). -/
abbrev Bytes := List Nat

/-- The `io::ErrorKind` values the source constructs. -/
inductive ErrorKind where
  | notFound
  | notADirectory
  | other
deriving DecidableEq, Repr

/-- An `io::Error`: a kind together with its message string. -/
structure IoError where
  kind : ErrorKind
  msg : String
deriving DecidableEq, Repr

/-- Modelled from the spec: the logging collaborator (`crate::log`) is not part
of the sources; the spec describes a fire-and-forget sink that receives
anomaly notifications at a "medium" severity level (`LogPriority::Middle` in
the indexer).  Low and high severities exist on the scale but are unused by
the indexer. -/
inductive LogPriority where
  | low
  | middle
  | high
deriving DecidableEq, Repr

/-- One call to `log_err`: the message and its priority. -/
structure LogEntry where
  msg : String
  priority : LogPriority
deriving DecidableEq, Repr

mutual
/-- Abstract model of the on-disk filesystem object the indexer visits: a
regular file with its metadata byte length, a symbolic link, or a directory
whose listing yields a sequence of entries.  A symbolic link is modelled by
what `open(2)` does with it: `symlinkTo target` is a link whose chain
resolves to `target` (opening it opens the target, and `fstat` on the
resulting descriptor describes the target), while `symlinkBroken` is a
dangling or cyclic link, for which the open itself fails. -/
inductive FS where
  | file (size : Nat) : FS
  | symlinkTo (target : FS) : FS
  | symlinkBroken : FS
  | dir (entries : EntList) : FS
deriving Repr
/-- A directory listing as `read_dir` iterates it: each step is an `Err`
result (`consErr`), an entry whose `OsString` name is not valid unicode
(`consBad`, carrying the lossy rendering of the name and the underlying
object), or an entry with a valid name (`consOk`). -/
inductive EntList where
  | nil : EntList
  | consErr (rest : EntList) : EntList
  | consBad (lossyName : String) (obj : FS) (rest : EntList) : EntList
  | consOk (name : String) (obj : FS) (rest : EntList) : EntList
deriving Repr
end

/-- The node type of the snapshot tree (`struct FileNode`): a name, a size
and, for directories only, a map of children (`Option<DirMap>`, the map
modelled as an association list). -/
inductive FileNode where
  | mk (name : String) (size : Nat) (children : Option (List (String × FileNode)))

/-- Field accessor: `FileNode.name`. -/
def FileNode.name : FileNode → String
  | .mk n _ _ => n

/-- Field accessor: `FileNode.size`. -/
def FileNode.size : FileNode → Nat
  | .mk _ s _ => s

/-- Field accessor: `FileNode.children`. -/
def FileNode.children : FileNode → Option (List (String × FileNode))
  | .mk _ _ c => c

/-- `HashMap::get` on the children map: first matching key. -/
def mapGet : List (String × FileNode) → String → Option FileNode
  | [], _ => none
  | (k, v) :: rest, key => if k = key then some v else mapGet rest key

/-- Remove every binding of a key from an association list. -/
def mapRemove : List (String × FileNode) → String → List (String × FileNode)
  | [], _ => []
  | (k, v) :: rest, key =>
    if k = key then mapRemove rest key else (k, v) :: mapRemove rest key

/-- `HashMap::insert`: replaces any existing binding of the key. -/
def mapInsert (m : List (String × FileNode)) (key : String) (v : FileNode) :
    List (String × FileNode) :=
  (key, v) :: mapRemove m key

/-- Rust `str::split('/')` on the character list of a path: splitting never
yields the empty list, and splitting the empty string yields `[""]`. -/
def splitSlashChars : List Char → List (List Char)
  | [] => [[]]
  | c :: rest =>
    let r := splitSlashChars rest
    if c = '/' then [] :: r
    else
      match r with
      | [] => [[c]]
      | seg :: segs => (c :: seg) :: segs

/-- Rust `path.split('/')` (and `path.split("/")`) as a list of strings. -/
def splitSlash (s : String) : List String :=
  (splitSlashChars s.toList).map (fun cs => String.mk cs)

/-- `path.split("/").last()` — the name assigned to a node in
`build_from_path`. -/
def rustName (path : String) : Option String :=
  (splitSlash path).getLast?

mutual
/-- `FileNode::build_from_path` (file_map.rs lines 22–94).  The pair returned
is the `Result` of the call and the ordered list of `log_err` calls it made.
`fs::File::open` (line 23) follows symbolic links and `file.metadata()`
(line 24) is an `fstat` of the opened descriptor, so the
`metadata.is_symlink()` check at line 38 is always false — it is dead code
and has no branch here.  A link with an existing target is therefore built
exactly as its target (with the name still derived from the supplied path),
modelled by re-entering the build on the target; a dangling or cyclic link
makes the open itself fail, and the `?` at line 23 propagates that I/O
error. -/
def build_from_path (path : String) (fs : FS) : Except IoError FileNode × List LogEntry :=
  match fs with
  | FS.symlinkBroken =>
    (Except.error ⟨ErrorKind.notFound, "No such file or directory"⟩, [])
  | FS.symlinkTo target => build_from_path path target
  | FS.file size =>
    match rustName path with
    | none =>
      (Except.error ⟨ErrorKind.other, "Error in trying to assign name to file " ++ path⟩, [])
    | some name => (Except.ok (FileNode.mk name size none), [])
  | FS.dir entries =>
    match rustName path with
    | none =>
      (Except.error ⟨ErrorKind.other, "Error in trying to assign name to file " ++ path⟩, [])
    | some name =>
      match buildEntries path [] entries with
      | (Except.error e, logs) => (Except.error e, logs)
      | (Except.ok m, logs) => (Except.ok (FileNode.mk name 0 (some m)), logs)
/-- The directory-entry loop of `build_from_path` (lines 52–86), threading
the `children_map` accumulator exactly as the `for` loop does: an `Err`
entry or an invalid-unicode name is logged at `Middle` priority and skipped;
a recursive failure aborts the whole build via `?`. -/
def buildEntries (path : String) (acc : List (String × FileNode)) (es : EntList) :
    Except IoError (List (String × FileNode)) × List LogEntry :=
  match es with
  | EntList.nil => (Except.ok acc, [])
  | EntList.consErr rest =>
    let r := buildEntries path acc rest
    (r.1, ⟨"Error in reading a file in directory " ++ path ++ ", skipping file",
      LogPriority.middle⟩ :: r.2)
  | EntList.consBad lossy _ rest =>
    let r := buildEntries path acc rest
    (r.1, ⟨"Error: filename " ++ lossy ++ " in directory " ++ path ++
      " not valid unicode, skipping file", LogPriority.middle⟩ :: r.2)
  | EntList.consOk name obj rest =>
    match build_from_path (path ++ "/" ++ name) obj with
    | (Except.error e, logs) => (Except.error e, logs)
    | (Except.ok node, logs) =>
      let r := buildEntries path (mapInsert acc name node) rest
      (r.1, logs ++ r.2)
end

/-- The `FileMap` state that survives construction: the root path string and
the head node.  The LRU cache is mutable state and is threaded separately. -/
structure FileMap where
  FULL_ROOT_PATH : String
  head : FileNode

/-- The LRU content cache (the `lru` crate's `LruCache<String, Arc<Vec<u8>>>`):
a capacity and the entries in recency order, most recently used first. -/
structure LruCache where
  cap : Nat
  entries : List (String × Bytes)
deriving DecidableEq, Repr

/-- Lookup in the entry list, without touching recency. -/
def lookupKey : List (String × Bytes) → String → Option Bytes
  | [], _ => none
  | (k, v) :: rest, key => if k = key then some v else lookupKey rest key

/-- Remove every binding of a key from the entry list. -/
def removeKey : List (String × Bytes) → String → List (String × Bytes)
  | [], _ => []
  | (k, v) :: rest, key =>
    if k = key then removeKey rest key else (k, v) :: removeKey rest key

/-- `LruCache::get`: on a hit the entry is moved to the most-recently-used
position and returned; on a miss the cache is unchanged. -/
def lruGet (c : LruCache) (key : String) : Option Bytes × LruCache :=
  match lookupKey c.entries key with
  | none => (none, c)
  | some v => (some v, ⟨c.cap, (key, v) :: removeKey c.entries key⟩)

/-- `LruCache::put`: replaces an existing binding (promoting it), otherwise
inserts at the most-recently-used position, first evicting the
least-recently-used entry when the cache is at capacity. -/
def lruPut (c : LruCache) (key : String) (v : Bytes) : LruCache :=
  match lookupKey c.entries key with
  | some _ => ⟨c.cap, (key, v) :: removeKey c.entries key⟩
  | none =>
    let room := if c.entries.length ≥ c.cap then c.entries.dropLast else c.entries
    ⟨c.cap, (key, v) :: room⟩

/-- Whether `fs::File::open` on the object fails: only a dangling or cyclic
symbolic link (anywhere along the followed chain) makes the open fail in
this static model. -/
def openFails : FS → Bool
  | FS.symlinkBroken => true
  | FS.symlinkTo target => openFails target
  | _ => false

/-- `metadata.is_dir()` after `fs::File::open`: the metadata is an `fstat`
of the opened descriptor, so a symlink chain is followed to its target. -/
def isDir : FS → Bool
  | FS.dir _ => true
  | FS.symlinkTo target => isDir target
  | _ => false

/-- `FileMap::from_root_dir` (lines 104–122): opens the root (failing with
the open's I/O error for a dangling link), checks that it is a directory,
builds the tree, and creates the LRU cache with fixed capacity
`NonZeroUsize::new(20)`. -/
def from_root_dir (root_dir : String) (fs : FS) :
    Except IoError (FileMap × LruCache) × List LogEntry :=
  if openFails fs then
    (Except.error ⟨ErrorKind.notFound, "No such file or directory"⟩, [])
  else if isDir fs then
    match build_from_path root_dir fs with
    | (Except.error e, logs) => (Except.error e, logs)
    | (Except.ok head, logs) =>
      (Except.ok (⟨root_dir, head⟩, ⟨20, []⟩), logs)
  else
    (Except.error ⟨ErrorKind.notADirectory,
      "Error: Root path is not a directory (" ++ root_dir ++ ")"⟩, [])

/-- The `for i in 0..path_split.len()` loop of `get_file_ref` (lines
132–151): at each segment, a leaf current node fails with `NotADirectory`,
an absent child fails with `NotFound`, otherwise the walk descends. -/
def descendLoop : FileNode → List String → Except IoError FileNode
  | node, [] => Except.ok node
  | node, seg :: rest =>
    match node.children with
    | some ch =>
      match mapGet ch seg with
      | some z => descendLoop z rest
      | none => Except.error ⟨ErrorKind.notFound, "File not found in file map"⟩
    | none =>
      Except.error ⟨ErrorKind.notADirectory,
        "Error, file " ++ seg ++ " is not a directory, cannot access"⟩

/-- `FileMap::get_file_ref` (lines 128–154): splits the path on '/', starts
at the head node, and runs the descent loop — but only when the split has
more than one segment; otherwise the current node (the root) is returned. -/
def get_file_ref (m : FileMap) (path : String) : Except IoError FileNode :=
  let path_split := splitSlash path
  if path_split.length > 1 then descendLoop m.head path_split
  else Except.ok m.head

/-- The disk as seen by `tokio::fs::File::open` + `read_to_end`: the bytes
currently stored at each absolute path, `none` when opening fails. -/
abbrev Disk := String → Option Bytes

/-- Observable events of one `get_file` call, in program order: acquiring and
releasing `self.lru.lock()`, the cache lookup (with its hit/miss outcome),
the awaited disk read of a full path, and the cache insert. -/
inductive Ev where
  | lockAcquire
  | cacheLookup (hit : Bool)
  | diskRead (fullPath : String)
  | cacheInsert (key : String)
  | lockRelease
deriving DecidableEq, Repr

/-- `FileMap::find_file_in_map` (lines 162–176): the `tokio::fs::File::open`
future is created first but is only polled after `get_file_ref` succeeds, so
a resolver failure performs no disk read; otherwise the file at
`FULL_ROOT_PATH ++ "/" ++ path` is opened and read to the end. -/
def find_file_in_map (m : FileMap) (disk : Disk) (path : String) :
    (Except IoError Bytes) × List Ev :=
  match get_file_ref m path with
  | Except.error e => (Except.error e, [])
  | Except.ok _ =>
    match disk (m.FULL_ROOT_PATH ++ "/" ++ path) with
    | none =>
      (Except.error ⟨ErrorKind.notFound, "No such file or directory"⟩,
        [Ev.diskRead (m.FULL_ROOT_PATH ++ "/" ++ path)])
    | some bytes => (Except.ok bytes, [Ev.diskRead (m.FULL_ROOT_PATH ++ "/" ++ path)])

/-- `FileMap::get_file` (lines 182–201): the mutex guard is taken first and
dropped only on return, so every event of the call — including the awaited
disk read of the miss path — happens between `lockAcquire` and
`lockRelease`.  On a hit the cached buffer is returned; on a miss
`find_file_in_map` runs and a successful read is inserted into the cache;
an error is returned with the cache untouched. -/
def get_file (m : FileMap) (disk : Disk) (st : LruCache) (path : String) :
    (Except IoError Bytes) × LruCache × List Ev :=
  let check_lru := lruGet st path
  match check_lru.1 with
  | some s => (Except.ok s, check_lru.2, [Ev.lockAcquire, Ev.cacheLookup true, Ev.lockRelease])
  | none =>
    match find_file_in_map m disk path with
    | (Except.ok l, evs) =>
      (Except.ok l, lruPut check_lru.2 path l,
        [Ev.lockAcquire, Ev.cacheLookup false] ++ evs ++ [Ev.cacheInsert path, Ev.lockRelease])
    | (Except.error e, evs) =>
      (Except.error e, check_lru.2,
        [Ev.lockAcquire, Ev.cacheLookup false] ++ evs ++ [Ev.lockRelease])

/-- Discriminator for the error side of a `Result`. -/
def isErr {α : Type} : Except IoError α → Bool
  | Except.error _ => true
  | Except.ok _ => false

/-- Whether an event trace performs a disk read while the cache lock is held:
scans the trace tracking the lock state. -/
def readsWhileLocked : Bool → List Ev → Bool
  | _, [] => false
  | _, Ev.lockAcquire :: r => readsWhileLocked true r
  | _, Ev.lockRelease :: r => readsWhileLocked false r
  | held, Ev.diskRead _ :: r => held || readsWhileLocked held r
  | held, _ :: r => readsWhileLocked held r

mutual
/-- Whether a symbolic link occurs anywhere in the modelled filesystem tree,
including beneath entries whose listing failed to produce a usable name. -/
def containsSymlink : FS → Bool
  | FS.file _ => false
  | FS.symlinkTo _ => true
  | FS.symlinkBroken => true
  | FS.dir es => entContainsSymlink es
/-- `containsSymlink` over a directory listing. -/
def entContainsSymlink : EntList → Bool
  | EntList.nil => false
  | EntList.consErr r => entContainsSymlink r
  | EntList.consBad _ o r => containsSymlink o || entContainsSymlink r
  | EntList.consOk _ o r => containsSymlink o || entContainsSymlink r
end

/-- Whether the filesystem object itself is a regular file (not a symlink,
not a directory). -/
def isRegularFile : FS → Bool
  | FS.file _ => true
  | _ => false

/-- The filesystem object a name denotes in a directory listing; a later
entry with the same valid name shadows an earlier one, mirroring
`HashMap::insert` replacement during the build loop. -/
def entLookup : EntList → String → Option FS
  | EntList.nil, _ => none
  | EntList.consErr r, k => entLookup r k
  | EntList.consBad _ _ r, k => entLookup r k
  | EntList.consOk n o r, k =>
    match entLookup r k with
    | some x => some x
    | none => if n = k then some o else none

/-- A directory listing with the skipped entries (listing errors and
invalid-unicode names) removed. -/
def dropSkipped : EntList → EntList
  | EntList.nil => EntList.nil
  | EntList.consErr r => dropSkipped r
  | EntList.consBad _ _ r => dropSkipped r
  | EntList.consOk n o r => EntList.consOk n o (dropSkipped r)

/-- Number of skipped entries at the top level of a directory listing. -/
def numSkipped : EntList → Nat
  | EntList.nil => 0
  | EntList.consErr r => 1 + numSkipped r
  | EntList.consBad _ _ r => 1 + numSkipped r
  | EntList.consOk _ _ r => numSkipped r

/-- Correspondence between a filesystem object and the node the indexer
built for it: an entry that opens to a regular file yields a leaf whose
`size` is the byte length and whose `children` is absent; an entry that
opens to a directory yields `size = 0`, `children` present, and every child
node corresponds to the listing entry of its name.  "Opens to" follows
symbolic links (`followLink`), since the indexer's open/fstat pair cannot
distinguish a link from its target.  Presence of `children` is the sole
type discriminator of `FileNode`. -/
inductive NodeMatches : FS → FileNode → Prop where
  | file (sz : Nat) (nm : String) : NodeMatches (FS.file sz) (FileNode.mk nm sz none)
  | dir (es : EntList) (nm : String) (m : List (String × FileNode))
      (hsome : ∀ k n, mapGet m k = some n → (entLookup es k).isSome = true)
      (hm : ∀ k n obj, mapGet m k = some n → entLookup es k = some obj → NodeMatches obj n) :
      NodeMatches (FS.dir es) (FileNode.mk nm 0 (some m))
  | followLink (t : FS) (n : FileNode) (h : NodeMatches t n) :
      NodeMatches (FS.symlinkTo t) n

/-- Run a sequence of `get_file` calls, threading the cache state. -/
def runGets (m : FileMap) (d : Disk) : LruCache → List String → LruCache
  | st, [] => st
  | st, p :: ps => runGets m d (get_file m d st p).2.1 ps

/-- Fixture: a root directory holding the single 13-byte file
`testfile1.txt`. -/
def fs1 : FS := FS.dir (EntList.consOk "testfile1.txt" (FS.file 13) EntList.nil)

/-- Fixture: the snapshot tree the indexer builds from `fs1`. -/
def map1 : FileMap :=
  ⟨"root", FileNode.mk "root" 0 (some [("testfile1.txt", FileNode.mk "testfile1.txt" 13 none)])⟩

/-- Fixture: the 13 bytes stored in `testfile1.txt`. -/
def bytes13 : Bytes := List.replicate 13 7

/-- Fixture: a disk where only `root/testfile1.txt` exists. -/
def disk1 : Disk := fun p => if p = "root/testfile1.txt" then some bytes13 else none

/-- Fixture: a disk where every open fails — the file was deleted. -/
def diskGone : Disk := fun _ => none

/-- Fixture: the freshly constructed cache of capacity 20. -/
def lru0 : LruCache := ⟨20, []⟩

/-- Fixture: a directory whose only entry, `link`, is a symbolic link whose
chain resolves to an existing 13-byte regular file. -/
def fsLinkedFile : FS :=
  FS.dir (EntList.consOk "link" (FS.symlinkTo (FS.file 13)) EntList.nil)

/-- Fixture: a listing with one iteration error, one invalid-unicode name
and one regular file. -/
def es4 : EntList :=
  EntList.consErr (EntList.consBad "x" (FS.file 1)
    (EntList.consOk "a" (FS.file 2) EntList.nil))

/-- Fixture: 21 distinct top-level file names, one more than the cache
capacity. -/
def names21 : List String :=
  ["f01", "f02", "f03", "f04", "f05", "f06", "f07", "f08", "f09", "f10",
   "f11", "f12", "f13", "f14", "f15", "f16", "f17", "f18", "f19", "f20", "f21"]

/-- Build a listing of regular files (each 1 byte) from a list of names. -/
def entsOf : List String → EntList
  | [] => EntList.nil
  | n :: r => EntList.consOk n (FS.file 1) (entsOf r)

/-- Fixture: a root directory with the 21 files of `names21`. -/
def fsBig : FS := FS.dir (entsOf names21)

/-- Fixture: the head node built from `fsBig` (defaulting on the impossible
error branch). -/
def headBig : FileNode :=
  match (build_from_path "root" fsBig).1 with
  | Except.ok n => n
  | Except.error _ => FileNode.mk "" 0 none

/-- Fixture: the file map over `fsBig`. -/
def mapBig : FileMap := ⟨"root", headBig⟩

/-- Fixture: a disk holding each of the 21 files with content `[7]`. -/
def diskBig : Disk :=
  fun p => if p ∈ names21.map (fun n => "root/" ++ n) then some [7] else none

/-- C1: the claim asserts that resolution descends the snapshot tree for
every non-empty path, a single-segment path included, so that a bare
top-level filename is never silently aliased to the root node.  The code
fails this: `get_file_ref` skips the descent loop whenever the split path
has a single segment and returns the root node, even though the root's
children map holds a distinct node for that very name; `get_file` still
returns the bytes of the file only because the disk read uses the raw path
string, not the resolved node. -/
theorem c1_single_segment_aliased_to_root :
    get_file_ref map1 "testfile1.txt" = Except.ok map1.head ∧
    (∃ ch, map1.head.children = some ch ∧
      mapGet ch "testfile1.txt" = some (FileNode.mk "testfile1.txt" 13 none)) ∧
    FileNode.mk "testfile1.txt" 13 none ≠ map1.head ∧
    (get_file map1 disk1 lru0 "testfile1.txt").1 = Except.ok bytes13 := by
  refine ⟨rfl, ⟨_, rfl, rfl⟩, ?_, rfl⟩
  intro h
  injection h with h1 h2 h3
  exact Option.noConfusion h3

/-- C2: the claim asserts that on a cache miss the exclusive cache lock is
not held across the asynchronous disk read.  The code violates this: the
`MutexGuard` taken at the top of `get_file` lives until the function
returns, so the awaited disk read of the miss path happens strictly between
`lockAcquire` and `lockRelease`, as the event trace of a concrete miss
shows. -/
theorem c2_lock_held_across_disk_read :
    (get_file map1 disk1 lru0 "testfile1.txt").2.2 =
      [Ev.lockAcquire, Ev.cacheLookup false, Ev.diskRead "root/testfile1.txt",
        Ev.cacheInsert "testfile1.txt", Ev.lockRelease] ∧
    readsWhileLocked false (get_file map1 disk1 lru0 "testfile1.txt").2.2 = true :=
  ⟨rfl, rfl⟩

/-- C5: the claim asserts that for every path the resolver fails with
`NotFound` when the next segment is absent from the current node's
children.  The code fails this for single-segment paths: resolving the
absent name `zzz` succeeds with the root node instead of failing, and the
`NotFound` error `get_file` then returns is the disk open failure, not the
resolver's "File not found in file map".  For multi-segment paths the typed
failures do occur, as the `NotADirectory` case shows. -/
theorem c5_missing_single_segment_resolves_to_root :
    get_file_ref map1 "zzz" = Except.ok map1.head ∧
    (get_file map1 disk1 lru0 "zzz").1 =
      Except.error ⟨ErrorKind.notFound, "No such file or directory"⟩ ∧
    get_file_ref map1 "testfile1.txt/x" =
      Except.error ⟨ErrorKind.notADirectory,
        "Error, file x is not a directory, cannot access"⟩ :=
  ⟨rfl, rfl, rfl⟩

/-- C9: resolving the empty string path against any snapshot tree succeeds
and returns the root node (`"".split('/')` yields the single segment `""`,
so the descent loop is skipped and the current node — the root — is
returned). -/
theorem c9_empty_path_resolves_to_root (m : FileMap) :
    get_file_ref m "" = Except.ok m.head := rfl

/-- C3: the claim says any symbolic link anywhere beneath the root makes
`from_root_dir` fail with an "unsupported entry" error, aborting the whole
build.  The check meant to enforce this (file_map.rs:38) is dead code:
`fs::File::open` follows symlinks and `file.metadata()` is an `fstat` of
the opened descriptor, so `metadata.is_symlink()` is always false.  A
symlink whose target exists is silently indexed as its target and the build
succeeds, producing a `FileMap`; only a dangling or cyclic link aborts the
build, and then with the open's `NotFound` I/O error, not the "unsupported
entry" error the code's own message announces. -/
theorem c3_symlink_check_is_dead :
    containsSymlink fsLinkedFile = true ∧
    (from_root_dir "root" fsLinkedFile).1 =
      Except.ok (⟨"root", FileNode.mk "root" 0
        (some [("link", FileNode.mk "link" 13 none)])⟩, lru0) ∧
    (build_from_path "root/broken" FS.symlinkBroken).1 =
      Except.error ⟨ErrorKind.notFound, "No such file or directory"⟩ :=
  ⟨rfl, rfl, rfl⟩

/-- C8: the content cache is created with fixed capacity 20
(`from_root_dir` yields a fresh cache of capacity 20), `get` on a present
key moves it to the most-recently-used position, and after `get_file` has
inserted content for the 21 distinct paths of `names21` in order, the
least-recently-used path `f01` is no longer cached, so fetching it again
performs a fresh disk read. -/
theorem c8_lru_eviction_after_21_inserts :
    (from_root_dir "root" fsBig).1 = Except.ok (mapBig, lru0) ∧
    lru0.cap = 20 ∧
    (lruGet (LruCache.mk 20 [("b", [2]), ("a", [1])]) "a").2.entries =
      [("a", [1]), ("b", [2])] ∧
    lookupKey (runGets mapBig diskBig lru0 names21).entries "f01" = none ∧
    Ev.diskRead "root/f01" ∈
      (get_file mapBig diskBig (runGets mapBig diskBig lru0 names21) "f01").2.2 :=
  ⟨rfl, rfl, rfl, by decide, by decide⟩

/-- Helper: a cache miss leaves the cache untouched. -/
theorem lruGet_fst_none (st : LruCache) (p : String)
    (h : (lruGet st p).1 = none) : (lruGet st p).2 = st := by
  unfold lruGet at h ⊢
  cases hk : lookupKey st.entries p with
  | none => rfl
  | some v => rw [hk] at h; simp at h

/-- C10: whenever `get_file` returns an error — a resolver failure or a
disk failure — the content cache state is returned unchanged: no entry is
inserted for the failed path, and since the failed lookup was a miss, the
recency order of the existing entries is not altered either. -/
theorem c10_error_leaves_cache_unchanged (m : FileMap) (d : Disk) (st : LruCache)
    (p : String) (e : IoError) (st2 : LruCache) (evs : List Ev)
    (h : get_file m d st p = (Except.error e, st2, evs)) : st2 = st := by
  simp only [get_file] at h
  cases hl : (lruGet st p).1 with
  | some s => rw [hl] at h; simp at h
  | none =>
    rw [hl] at h
    cases hf : find_file_in_map m d p with
    | mk res evs2 =>
      rw [hf] at h
      cases res with
      | ok l => simp at h
      | error e2 =>
        have h2 : (lruGet st p).2 = st2 := congrArg (fun x => x.2.1) h
        rw [← h2]
        exact lruGet_fst_none st p hl

/-- Witness for C10: a query through a regular file fails with
`NotADirectory` and hands back the untouched empty cache. -/
theorem c10_witness_failed_query :
    get_file map1 disk1 lru0 "testfile1.txt/x" =
      (Except.error ⟨ErrorKind.notADirectory,
        "Error, file x is not a directory, cannot access"⟩, lru0,
        [Ev.lockAcquire, Ev.cacheLookup false, Ev.lockRelease]) ∧
    lru0 = lru0 :=
  ⟨by rfl, c10_error_leaves_cache_unchanged map1 disk1 lru0 "testfile1.txt/x"
    ⟨ErrorKind.notADirectory, "Error, file x is not a directory, cannot access"⟩ lru0
    [Ev.lockAcquire, Ev.cacheLookup false, Ev.lockRelease] (by rfl)⟩

/-- Helper: `put` always leaves the inserted key at the most-recently-used
position. -/
theorem lruPut_entries_head (st : LruCache) (p : String) (b : Bytes) :
    ∃ tl, (lruPut st p b).entries = (p, b) :: tl := by
  unfold lruPut
  cases hk : lookupKey st.entries p with
  | none => exact ⟨_, rfl⟩
  | some v => exact ⟨_, rfl⟩

/-- Helper: a `get_file` call whose path sits at the front of the cache is a
pure cache hit: it returns the cached bytes and performs no disk read. -/
theorem get_file_hit (m : FileMap) (d : Disk) (cap : Nat) (p : String) (b : Bytes)
    (tl : List (String × Bytes)) :
    get_file m d ⟨cap, (p, b) :: tl⟩ p =
      (Except.ok b, ⟨cap, (p, b) :: removeKey tl p⟩,
        [Ev.lockAcquire, Ev.cacheLookup true, Ev.lockRelease]) := by
  simp [get_file, lruGet, lookupKey, removeKey]

/-- Helper: a successful `get_file` leaves its path most recently used in
the returned cache, bound to the returned bytes. -/
theorem get_file_ok_entries (m : FileMap) (d : Disk) (st : LruCache) (p : String)
    (b : Bytes) (st1 : LruCache) (evs : List Ev)
    (h : get_file m d st p = (Except.ok b, st1, evs)) :
    ∃ tl, st1.entries = (p, b) :: tl := by
  simp only [get_file] at h
  cases hl : (lruGet st p).1 with
  | some s =>
    rw [hl] at h
    have hs : s = b := by
      have h1 : Except.ok s = Except.ok b := congrArg (fun x => x.1) h
      simpa using h1
    have h2 : (lruGet st p).2 = st1 := congrArg (fun x => x.2.1) h
    subst hs
    unfold lruGet at hl h2
    cases hk : lookupKey st.entries p with
    | none => rw [hk] at hl; simp at hl
    | some v =>
      rw [hk] at hl h2
      simp at hl
      subst hl
      rw [← h2]
      exact ⟨_, rfl⟩
  | none =>
    rw [hl] at h
    cases hf : find_file_in_map m d p with
    | mk res evs2 =>
      rw [hf] at h
      cases res with
      | error e => simp at h
      | ok l =>
        have hlb : l = b := by
          have h1 : Except.ok l = Except.ok b := congrArg (fun x => x.1) h
          simpa using h1
        have h2 : lruPut (lruGet st p).2 p l = st1 := congrArg (fun x => x.2.1) h
        subst hlb
        rw [← h2]
        exact lruPut_entries_head _ p l

/-- C7: after any successful `get_file`, calling `get_file` again on the
same path — against any disk state, including one where the file was
deleted or modified — returns byte-identical content, is served from the
cache (its trace is the pure hit trace) and performs no disk read. -/
theorem c7_second_call_served_from_cache (m : FileMap) (d d2 : Disk) (st : LruCache)
    (p : String) (b : Bytes) (st1 : LruCache) (evs : List Ev)
    (h : get_file m d st p = (Except.ok b, st1, evs)) :
    (get_file m d2 st1 p).1 = Except.ok b ∧
    (get_file m d2 st1 p).2.2 = [Ev.lockAcquire, Ev.cacheLookup true, Ev.lockRelease] ∧
    ∀ q, Ev.diskRead q ∉ (get_file m d2 st1 p).2.2 := by
  obtain ⟨tl, htl⟩ := get_file_ok_entries m d st p b st1 evs h
  cases st1 with
  | mk cap1 entries1 =>
    have htl2 : entries1 = (p, b) :: tl := htl
    subst htl2
    rw [get_file_hit m d2 cap1 p b tl]
    refine ⟨rfl, rfl, ?_⟩
    intro q hq
    simp at hq

/-- Witness for C7: `testfile1.txt` is read once through an empty cache,
then read again after the disk has lost every file; the second call still
returns the same 13 bytes, from the cache, with no disk read. -/
theorem c7_witness_reread_after_delete :
    get_file map1 disk1 lru0 "testfile1.txt" =
      (Except.ok bytes13, LruCache.mk 20 [("testfile1.txt", bytes13)],
        [Ev.lockAcquire, Ev.cacheLookup false, Ev.diskRead "root/testfile1.txt",
          Ev.cacheInsert "testfile1.txt", Ev.lockRelease]) ∧
    ((get_file map1 diskGone (LruCache.mk 20 [("testfile1.txt", bytes13)]) "testfile1.txt").1 =
        Except.ok bytes13 ∧
      (get_file map1 diskGone (LruCache.mk 20 [("testfile1.txt", bytes13)])
          "testfile1.txt").2.2 =
        [Ev.lockAcquire, Ev.cacheLookup true, Ev.lockRelease] ∧
      ∀ q, Ev.diskRead q ∉
        (get_file map1 diskGone (LruCache.mk 20 [("testfile1.txt", bytes13)])
          "testfile1.txt").2.2) :=
  ⟨by rfl,
    c7_second_call_served_from_cache map1 disk1 diskGone lru0 "testfile1.txt" bytes13
      (LruCache.mk 20 [("testfile1.txt", bytes13)])
      [Ev.lockAcquire, Ev.cacheLookup false, Ev.diskRead "root/testfile1.txt",
        Ev.cacheInsert "testfile1.txt", Ev.lockRelease] (by rfl)⟩

/-- Helper: removing the skipped entries (listing errors and
invalid-unicode names) from a directory listing does not change the result
of the build loop — only those entries are skipped, and the remaining
entries build exactly as they would without the anomalies. -/
theorem buildEntries_dropSkipped_fst (es : EntList) :
    ∀ p acc, (buildEntries p acc es).1 = (buildEntries p acc (dropSkipped es)).1 := by
  induction es using EntList.rec (motive_1 := fun _ => True) with
  | file sz => trivial
  | symlinkTo t ih => trivial
  | symlinkBroken => trivial
  | dir es ih => trivial
  | nil => intro p acc; rfl
  | consErr r ihr =>
    intro p acc
    simp only [dropSkipped, buildEntries]
    exact ihr p acc
  | consBad lossy o r iho ihr =>
    intro p acc
    simp only [dropSkipped, buildEntries]
    exact ihr p acc
  | consOk n o r iho ihr =>
    intro p acc
    simp only [dropSkipped, buildEntries]
    cases hb : build_from_path (p ++ "/" ++ n) o with
    | mk res logs =>
      cases res with
      | error e => rfl
      | ok node => exact ihr p (mapInsert acc n node)

/-- Helper: when the build loop completes successfully, it has emitted
exactly one log entry per skipped entry on top of the logs of the cleaned
listing. -/
theorem buildEntries_logs_length (es : EntList) :
    ∀ p acc m, (buildEntries p acc es).1 = Except.ok m →
      (buildEntries p acc es).2.length =
        numSkipped es + (buildEntries p acc (dropSkipped es)).2.length := by
  induction es using EntList.rec (motive_1 := fun _ => True) with
  | file sz => trivial
  | symlinkTo t ih => trivial
  | symlinkBroken => trivial
  | dir es ih => trivial
  | nil => intro p acc m hm; rfl
  | consErr r ihr =>
    intro p acc m hm
    simp only [buildEntries] at hm ⊢
    simp only [dropSkipped, numSkipped]
    rw [List.length_cons, ihr p acc m hm]
    omega
  | consBad lossy o r iho ihr =>
    intro p acc m hm
    simp only [buildEntries] at hm ⊢
    simp only [dropSkipped, numSkipped]
    rw [List.length_cons, ihr p acc m hm]
    omega
  | consOk n o r iho ihr =>
    intro p acc m hm
    simp only [buildEntries] at hm ⊢
    simp only [dropSkipped, numSkipped, buildEntries]
    cases hb : build_from_path (p ++ "/" ++ n) o with
    | mk bres blogs =>
      rw [hb] at hm
      cases bres with
      | error e => simp at hm
      | ok node =>
        dsimp only at hm ⊢
        rw [List.length_append, List.length_append,
          ihr p (mapInsert acc n node) m hm]
        omega

/-- Helper: every log entry the build loop (or a recursive build under it)
emits has `Middle` priority — the only priority the indexer logs at. -/
theorem buildEntries_logs_middle (es : EntList) :
    ∀ p acc l, l ∈ (buildEntries p acc es).2 → l.priority = LogPriority.middle := by
  induction es using EntList.rec
    (motive_1 := fun fs => ∀ p l, l ∈ (build_from_path p fs).2 →
      l.priority = LogPriority.middle) with
  | file sz =>
    rename_i p l hl
    simp only [build_from_path] at hl
    cases hrn : rustName p with
    | none => rw [hrn] at hl; simp at hl
    | some name => rw [hrn] at hl; simp at hl
  | symlinkTo t ih =>
    rename_i p l hl
    simp only [build_from_path] at hl
    exact ih p l hl
  | symlinkBroken =>
    rename_i p l hl
    simp [build_from_path] at hl
  | dir es ih =>
    rename_i p l hl
    simp only [build_from_path] at hl
    cases hrn : rustName p with
    | none => rw [hrn] at hl; simp at hl
    | some name =>
      rw [hrn] at hl
      cases hbe : buildEntries p [] es with
      | mk res logs2 =>
        rw [hbe] at hl
        cases res with
        | error e => exact ih p [] l (by rw [hbe]; exact hl)
        | ok mm => exact ih p [] l (by rw [hbe]; exact hl)
  | nil =>
    intro p acc l hl
    simp [buildEntries] at hl
  | consErr r ihr =>
    intro p acc l hl
    simp only [buildEntries, List.mem_cons] at hl
    cases hl with
    | inl h1 => rw [h1]
    | inr h2 => exact ihr p acc l h2
  | consBad lossy o r iho ihr =>
    intro p acc l hl
    simp only [buildEntries, List.mem_cons] at hl
    cases hl with
    | inl h1 => rw [h1]
    | inr h2 => exact ihr p acc l h2
  | consOk n o r iho ihr =>
    intro p acc l hl
    simp only [buildEntries] at hl
    cases hb : build_from_path (p ++ "/" ++ n) o with
    | mk bres blogs =>
      rw [hb] at hl
      cases bres with
      | error e => exact iho (p ++ "/" ++ n) l (by rw [hb]; exact hl)
      | ok node =>
        dsimp only at hl
        rw [List.mem_append] at hl
        cases hl with
        | inl h1 => exact iho (p ++ "/" ++ n) l (by rw [hb]; exact h1)
        | inr h2 => exact ihr p (mapInsert acc n node) l h2

/-- C4: during indexing of a directory, listing errors and invalid-unicode
names are recoverable: the build result is exactly the result of the
listing with those entries removed (so only the offending entries are
skipped and the remaining entries build normally, with no failure caused
by the anomaly), every emitted log entry has medium priority, and a
completed build logs exactly one entry per skipped anomaly. -/
theorem c4_recoverable_anomalies_skipped_and_logged (p : String)
    (acc : List (String × FileNode)) (es : EntList) :
    (buildEntries p acc es).1 = (buildEntries p acc (dropSkipped es)).1 ∧
    (∀ l ∈ (buildEntries p acc es).2, l.priority = LogPriority.middle) ∧
    ∀ m, (buildEntries p acc es).1 = Except.ok m →
      (buildEntries p acc es).2.length =
        numSkipped es + (buildEntries p acc (dropSkipped es)).2.length :=
  ⟨buildEntries_dropSkipped_fst es p acc,
    fun l hl => buildEntries_logs_middle es p acc l hl,
    fun m hm => buildEntries_logs_length es p acc m hm⟩

/-- Witness for C4: a listing with one iteration error, one invalid name
and one good file builds the same map as the clean listing, logging two
medium-priority entries for the two skipped anomalies. -/
theorem c4_witness_mixed_listing :
    (buildEntries "root" [] es4).1 = (buildEntries "root" [] (dropSkipped es4)).1 ∧
    (∀ l ∈ (buildEntries "root" [] es4).2, l.priority = LogPriority.middle) ∧
    (buildEntries "root" [] es4).2.length =
      numSkipped es4 + (buildEntries "root" [] (dropSkipped es4)).2.length :=
  ⟨(c4_recoverable_anomalies_skipped_and_logged "root" [] es4).1,
    (c4_recoverable_anomalies_skipped_and_logged "root" [] es4).2.1,
    (c4_recoverable_anomalies_skipped_and_logged "root" [] es4).2.2
      [("a", FileNode.mk "a" 2 none)] (by rfl)⟩

/-- Helper: removing a different key leaves a lookup unchanged. -/
theorem mapGet_mapRemove (key k : String) (hne : key ≠ k) :
    ∀ acc : List (String × FileNode), mapGet (mapRemove acc key) k = mapGet acc k := by
  intro acc
  induction acc with
  | nil => rfl
  | cons kv rest ih =>
    obtain ⟨k1, v1⟩ := kv
    simp only [mapRemove, mapGet]
    by_cases h1 : k1 = key
    · rw [if_pos h1, ih]
      have h2 : ¬ k1 = k := fun hh => hne (h1.symm.trans hh)
      rw [if_neg h2]
    · rw [if_neg h1]
      simp only [mapGet]
      by_cases h2 : k1 = k
      · rw [if_pos h2, if_pos h2]
      · rw [if_neg h2, if_neg h2, ih]

/-- Helper: lookup after a replacing insert. -/
theorem mapGet_mapInsert (acc : List (String × FileNode)) (key k : String) (v : FileNode) :
    mapGet (mapInsert acc key v) k = if key = k then some v else mapGet acc k := by
  simp only [mapInsert, mapGet]
  by_cases h : key = k
  · rw [if_pos h, if_pos h]
  · rw [if_neg h, if_neg h, mapGet_mapRemove key k h acc]

/-- C6 (amended): every node a successful build produces matches what its
filesystem entry opens to, symbolic links followed — `children` is present
(possibly empty) exactly when the entry opens to a directory and absent
exactly when it opens to a regular file (the type has no other
discriminator), `size` is the opened file's byte length at index time for a
file and `0` for a directory, and the correspondence holds recursively for
every child node of the tree.  The claim's original wording — children
absent exactly when the entry *is* a regular file — fails for a symlink
entry, which the indexer cannot distinguish from its target; see the
counterexample. -/
theorem c6_built_nodes_match (fs : FS) :
    ∀ p n logs, build_from_path p fs = (Except.ok n, logs) → NodeMatches fs n := by
  induction fs using FS.rec
    (motive_2 := fun es => ∀ p acc m logs,
      buildEntries p acc es = (Except.ok m, logs) →
      ∀ k nd, mapGet m k = some nd →
        ((entLookup es k).isSome = true ∧
          ∀ obj, entLookup es k = some obj → NodeMatches obj nd) ∨
        (entLookup es k = none ∧ mapGet acc k = some nd)) with
  | file sz =>
    intro p n logs h
    simp only [build_from_path] at h
    cases hrn : rustName p with
    | none => rw [hrn] at h; simp at h
    | some name =>
      rw [hrn] at h
      simp only [Prod.mk.injEq, Except.ok.injEq] at h
      obtain ⟨h1, h2⟩ := h
      rw [← h1]
      exact NodeMatches.file sz name
  | symlinkTo t ih =>
    intro p n logs h
    simp only [build_from_path] at h
    exact NodeMatches.followLink t n (ih p n logs h)
  | symlinkBroken =>
    intro p n logs h
    simp [build_from_path] at h
  | dir es ih =>
    intro p n logs h
    simp only [build_from_path] at h
    cases hrn : rustName p with
    | none => rw [hrn] at h; simp at h
    | some name =>
      rw [hrn] at h
      cases hbe : buildEntries p [] es with
      | mk res logs2 =>
        rw [hbe] at h
        cases res with
        | error e => simp at h
        | ok mm =>
          simp only [Prod.mk.injEq, Except.ok.injEq] at h
          obtain ⟨h1, h2⟩ := h
          rw [← h1]
          refine NodeMatches.dir es name mm ?_ ?_
          · intro k nd hk
            rcases ih p [] mm logs2 hbe k nd hk with ⟨hs, _⟩ | ⟨_, hacc⟩
            · exact hs
            · simp [mapGet] at hacc
          · intro k nd obj hk hobj
            rcases ih p [] mm logs2 hbe k nd hk with ⟨_, hc⟩ | ⟨_, hacc⟩
            · exact hc obj hobj
            · simp [mapGet] at hacc
  | nil =>
    rename_i p acc m logs h k nd hk
    simp only [buildEntries, Prod.mk.injEq, Except.ok.injEq] at h
    obtain ⟨h1, h2⟩ := h
    subst h1
    exact Or.inr ⟨rfl, hk⟩
  | consErr r ihr =>
    rename_i p acc m logs h k nd hk
    simp only [buildEntries] at h
    cases hbe : buildEntries p acc r with
    | mk res logs2 =>
      rw [hbe] at h
      dsimp only at h
      simp only [Prod.mk.injEq] at h
      obtain ⟨h1, h2⟩ := h
      rcases ihr p acc m logs2 (by rw [hbe, h1]) k nd hk with ⟨hs, hc⟩ | ⟨hn, hacc⟩
      · exact Or.inl ⟨hs, fun obj hobj => hc obj hobj⟩
      · exact Or.inr ⟨hn, hacc⟩
  | consBad lossy o r iho ihr =>
    rename_i p acc m logs h k nd hk
    simp only [buildEntries] at h
    cases hbe : buildEntries p acc r with
    | mk res logs2 =>
      rw [hbe] at h
      dsimp only at h
      simp only [Prod.mk.injEq] at h
      obtain ⟨h1, h2⟩ := h
      rcases ihr p acc m logs2 (by rw [hbe, h1]) k nd hk with ⟨hs, hc⟩ | ⟨hn, hacc⟩
      · exact Or.inl ⟨hs, fun obj hobj => hc obj hobj⟩
      · exact Or.inr ⟨hn, hacc⟩
  | consOk n o r iho ihr =>
    rename_i p acc m logs h k nd hk
    simp only [buildEntries] at h
    cases hb : build_from_path (p ++ "/" ++ n) o with
    | mk bres blogs =>
      rw [hb] at h
      cases bres with
      | error e => simp at h
      | ok node =>
        dsimp only at h
        cases hbe : buildEntries p (mapInsert acc n node) r with
        | mk res2 logs2 =>
          rw [hbe] at h
          dsimp only at h
          simp only [Prod.mk.injEq] at h
          obtain ⟨h1, h2⟩ := h
          rcases ihr p (mapInsert acc n node) m logs2 (by rw [hbe, h1]) k nd hk with
            ⟨hs, hc⟩ | ⟨hn, hacc⟩
          · rcases Option.isSome_iff_exists.mp hs with ⟨x, hre⟩
            refine Or.inl ⟨?_, ?_⟩
            · simp [entLookup, hre]
            · intro obj hobj
              simp only [entLookup, hre] at hobj
              injection hobj with hx
              subst hx
              exact hc x hre
          · rw [mapGet_mapInsert acc n k node] at hacc
            by_cases hnk : n = k
            · rw [if_pos hnk] at hacc
              injection hacc with hnd
              subst hnd
              refine Or.inl ⟨?_, ?_⟩
              · simp [entLookup, hn, hnk]
              · intro obj hobj
                simp only [entLookup, hn] at hobj
                rw [if_pos hnk] at hobj
                injection hobj with ho
                subst ho
                exact iho (p ++ "/" ++ n) node blogs hb
            · rw [if_neg hnk] at hacc
              refine Or.inr ⟨?_, hacc⟩
              simp [entLookup, hn, hnk]

/-- Witness for C6: the tree built from `fs1` matches `fs1`. -/
theorem c6_witness_fs1_tree :
    NodeMatches fs1 (FileNode.mk "root" 0
      (some [("testfile1.txt", FileNode.mk "testfile1.txt" 13 none)])) :=
  c6_built_nodes_match fs1 "root"
    (FileNode.mk "root" 0 (some [("testfile1.txt", FileNode.mk "testfile1.txt" 13 none)]))
    [] (by rfl)

/-- Witness for C9: the empty path resolves to the root node of `map1`. -/
theorem c9_witness_empty_path :
    get_file_ref map1 "" = Except.ok map1.head :=
  c9_empty_path_resolves_to_root map1

/-- C6 counterexample: a successful build whose tree holds a leaf node
(`children` absent, `size` 13) for the entry `link`, which is a symbolic
link — not a regular file — to an existing 13-byte file: the indexer's
open/fstat pair sees only the target, so presence of `children` does not
discriminate regular files from symlinks to them. -/
theorem c6_counterexample_symlink_leaf :
    (build_from_path "root" fsLinkedFile).1 =
      Except.ok (FileNode.mk "root" 0 (some [("link", FileNode.mk "link" 13 none)])) ∧
    (FileNode.mk "link" 13 none).children = none ∧
    entLookup (EntList.consOk "link" (FS.symlinkTo (FS.file 13)) EntList.nil) "link" =
      some (FS.symlinkTo (FS.file 13)) ∧
    isRegularFile (FS.symlinkTo (FS.file 13)) = false :=
  ⟨rfl, rfl, rfl, rfl⟩
